import Mathlib

/-!
# Verification of the hypercore-crypto primitive layer

A shallow embedding of `src/index.js`: the Merkle hash-tree digests
(`data`, `parent`, `tree`, `hash`, `namespace`) over a concrete executable
SHA-256, and the Schnorr-style signature engine (`keyPair`,
`validateKeyPair`, `sign`, `verify`, `decrypt`) over the prime-order group
capability that the code obtains from its ristretto255 collaborator.

Bytes are `Nat`s below 256, buffers are `List Nat`.  SHA-256 is implemented
concretely (it is the hash the code instantiates), so the repository's
reference digests are checked by kernel computation.  The elliptic-curve
collaborator is modelled as the abstract prime-order cyclic group of order
`L` (the ristretto255 group order): a point is identified with its discrete
logarithm, scalar arithmetic is `ZMod L`, encodings are injective 32-byte
maps with partial inverses, and the seeded hash-to-scalar map is a
parameter.
-/

set_option maxRecDepth 100000

namespace HypercoreCrypto

/-! ## Byte-level helpers -/

/-- Modulus for 32-bit words. -/
def M32 : Nat := 4294967296

/-- Right rotation of a 32-bit word. -/
def rotr (w k : Nat) : Nat := ((w >>> k) ||| (w <<< (32 - k))) % M32

/-- Little-endian byte expansion: `k` bytes of `n` (low byte first). -/
def toLEbytes : Nat → Nat → List Nat
  | 0, _ => []
  | k + 1, n => (n % 256) :: toLEbytes k (n / 256)

/-- Read a little-endian byte list back as a number. -/
def fromLEbytes : List Nat → Nat
  | [] => 0
  | b :: r => b + 256 * fromLEbytes r

/-- Big-endian byte expansion: `k` bytes of `n` (high byte first). -/
def toBEbytes (k n : Nat) : List Nat := (toLEbytes k n).reverse

/-! ## SHA-256 (the hash function the code instantiates) -/

/-- SHA-256 round constants (FIPS 180-4, in decimal). -/
def shaK : List Nat :=
  [1116352408, 1899447441, 3049323471, 3921009573, 961987163,
   1508970993, 2453635748, 2870763221, 3624381080, 310598401,
   607225278, 1426881987, 1925078388, 2162078206, 2614888103,
   3248222580, 3835390401, 4022224774, 264347078, 604807628,
   770255983, 1249150122, 1555081692, 1996064986, 2554220882,
   2821834349, 2952996808, 3210313671, 3336571891, 3584528711,
   113926993, 338241895, 666307205, 773529912, 1294757372,
   1396182291, 1695183700, 1986661051, 2177026350, 2456956037,
   2730485921, 2820302411, 3259730800, 3345764771, 3516065817,
   3600352804, 4094571909, 275423344, 430227734, 506948616,
   659060556, 883997877, 958139571, 1322822218, 1537002063,
   1747873779, 1955562222, 2024104815, 2227730452, 2361852424,
   2428436474, 2756734187, 3204031479, 3329325298]

/-- SHA-256 initial state (FIPS 180-4, in decimal). -/
def shaH0 : List Nat :=
  [1779033703, 3144134277, 1013904242, 2773480762,
   1359893119, 2600822924, 528734635, 1541459225]

/-- Small sigma 0 (message schedule). -/
def sSig0 (w : Nat) : Nat := (rotr w 7) ^^^ (rotr w 18) ^^^ (w >>> 3)

/-- Small sigma 1 (message schedule). -/
def sSig1 (w : Nat) : Nat := (rotr w 17) ^^^ (rotr w 19) ^^^ (w >>> 10)

/-- Big sigma 0 (compression). -/
def bSig0 (a : Nat) : Nat := (rotr a 2) ^^^ (rotr a 13) ^^^ (rotr a 22)

/-- Big sigma 1 (compression). -/
def bSig1 (e : Nat) : Nat := (rotr e 6) ^^^ (rotr e 11) ^^^ (rotr e 25)

/-- Choice function. -/
def chF (e f g : Nat) : Nat := (e &&& f) ^^^ ((e ^^^ 4294967295) &&& g)

/-- Majority function. -/
def majF (a b c : Nat) : Nat := (a &&& b) ^^^ (a &&& c) ^^^ (b &&& c)

/-- Extend the message schedule by one word. -/
def schedExtend (ws : List Nat) : List Nat :=
  let n := ws.length
  ws ++ [(ws.getD (n - 16) 0 + sSig1 (ws.getD (n - 2) 0) +
          ws.getD (n - 7) 0 + sSig0 (ws.getD (n - 15) 0)) % M32]

/-- Full 64-word message schedule from a 16-word block. -/
def schedule (ws : List Nat) : List Nat :=
  (List.range 48).foldl (fun acc _ => schedExtend acc) ws

/-- One compression round on the 8-word working state. -/
def shaRound (st : List Nat) (kw : Nat × Nat) : List Nat :=
  match st with
  | [a, b, c, d, e, f, g, h] =>
    let t1 := (h + bSig1 e + chF e f g + kw.1 + kw.2) % M32
    let t2 := (bSig0 a + majF a b c) % M32
    [(t1 + t2) % M32, a, b, c, (d + t1) % M32, e, f, g]
  | _ => st

/-- Compress one 16-word block into the chaining state. -/
def compressBlock (h : List Nat) (block : List Nat) : List Nat :=
  let st := (shaK.zip (schedule block)).foldl shaRound h
  (h.zip st).map (fun p => (p.1 + p.2) % M32)

/-- Group a byte list into big-endian 32-bit words. -/
def bytesToWords : List Nat → List Nat
  | b0 :: b1 :: b2 :: b3 :: rest =>
      (((b0 * 256 + b1) * 256 + b2) * 256 + b3) :: bytesToWords rest
  | _ => []

/-- Consume the padded word stream 16 words at a time. -/
def processWords (h : List Nat) : List Nat → List Nat
  | w0 :: w1 :: w2 :: w3 :: w4 :: w5 :: w6 :: w7 ::
    w8 :: w9 :: w10 :: w11 :: w12 :: w13 :: w14 :: w15 :: rest =>
      processWords
        (compressBlock h [w0, w1, w2, w3, w4, w5, w6, w7,
                          w8, w9, w10, w11, w12, w13, w14, w15]) rest
  | _ => h

/-- Serialise the final state as 32 big-endian bytes. -/
def wordsToBytes : List Nat → List Nat
  | [] => []
  | w :: r => toBEbytes 4 w ++ wordsToBytes r

/-- SHA-256 padding: `0x80`, zeros to 56 mod 64, 64-bit big-endian bit length. -/
def shaPad (msg : List Nat) : List Nat :=
  msg ++ 128 :: List.replicate ((64 + 56 - (msg.length % 64) - 1) % 64) 0 ++
    toBEbytes 8 (8 * msg.length)

/-- SHA-256 of a byte list. -/
def sha256 (msg : List Nat) : List Nat :=
  wordsToBytes (processWords shaH0 (bytesToWords (shaPad msg)))

/-! ## The streaming hasher capability

The code drives SHA-256 through `sha256.create()` / `update` / `digest`.
The streaming collaborator is modelled by its interface contract: the state
is the transcript of bytes fed so far, `update` appends a chunk and
`digest` is SHA-256 of the transcript. -/

/-- Streaming-hash state: the bytes fed so far. -/
structure Hasher where
  transcript : List Nat

/-- Mirrors `sha256.create()`. -/
def Hasher.create : Hasher := ⟨[]⟩

/-- Mirrors `hash.update(chunk)`. -/
def Hasher.update (h : Hasher) (chunk : List Nat) : Hasher :=
  ⟨h.transcript ++ chunk⟩

/-- Mirrors `hash.digest()`. -/
def Hasher.digest (h : Hasher) : List Nat := sha256 h.transcript

/-! ## Hash-tree hasher (src/index.js: data, parent, tree, hash, namespace) -/

/-- Mirrors `c.encode(c.uint64, n)`: compact-encoding stores `uint64` as 8
bytes little-endian. -/
def encUint64 (n : Nat) : List Nat := toLEbytes 8 n

/-- A caller-supplied Merkle tree node, as consumed by `parent` and `tree`. -/
structure TreeNode where
  index : Nat
  size : Nat
  hash : List Nat

/-- Mirrors `exports.data`: digest of
`LEAF_TYPE || uint64(byteLength) || data`. -/
def data (d : List Nat) : List Nat :=
  ((((Hasher.create.update [0]).update (encUint64 d.length)).update d)).digest

/-- Mirrors `exports.parent`: swap so the smaller index comes first, then
digest of `PARENT_TYPE || uint64(a.size + b.size) || a.hash || b.hash`. -/
def parent (a b : TreeNode) : List Nat :=
  let p := if a.index > b.index then (b, a) else (a, b)
  (((((Hasher.create.update [1]).update
      (encUint64 (p.1.size + p.2.size))).update p.1.hash).update p.2.hash)).digest

/-- Mirrors `exports.tree`: digest of `ROOT_TYPE` followed by
`r.hash || uint64(r.index) || uint64(r.size)` for each root in input order. -/
def tree (roots : List TreeNode) : List Nat :=
  (roots.foldl
      (fun h r => ((h.update r.hash).update (encUint64 r.index)).update
        (encUint64 r.size))
      (Hasher.create.update [2])).digest

/-- Mirrors `exports.hash` on a chunk list: one `update` per chunk.  The
single-buffer call `hash(buf)` is `hashChunks [buf]`. -/
def hashChunks (chunks : List (List Nat)) : List Nat :=
  (chunks.foldl Hasher.update Hasher.create).digest

/-- Mirrors the loop body of `exports.namespace`: the 33-byte scratch `ns`
holds `sha256(name)` and then `ns[32] = ids[i]` — a `Uint8Array` store,
which truncates the id modulo 256 — and each entry is the digest of `ns`. -/
def namespaceIds (name : List Nat) (ids : List Nat) : List (List Nat) :=
  let nameDigest := (Hasher.create.update name).digest
  ids.map (fun id => (Hasher.create.update (nameDigest ++ [id % 256])).digest)

/-- Mirrors `exports.namespace` when `count` is a number: ids `0 .. count-1`. -/
def namespaceN (name : List Nat) (count : Nat) : List (List Nat) :=
  namespaceIds name (List.range count)

/-! ## The ristretto255 group capability

The curve collaborator is a prime-order cyclic group, so it is modelled as
`ZMod L` with `L` the ristretto255 group order: a point is identified with
its discrete logarithm with respect to the base point, scalar arithmetic is
the field `ZMod L`, and the 32-byte encodings are injective with partial
inverses that reject wrong lengths and out-of-range values (the shape of
`Point.fromBytes` / `Fn.fromBytes` failures the code catches).  The seeded
hash-to-scalar map (`ristretto255_hasher.hashToScalar`) stays a parameter
of the theorems. -/

/-- The ristretto255 group order `2^252 + 27742317777372353535851937790883648493`. -/
def L : Nat := 7237005577332262213973186563042994240857116359379907606001950938285454250989

/-- Scalars modulo the group order (`ristretto255.Point.Fn`). -/
abbrev Scalar := ZMod L

/-- Group elements, identified with their discrete logarithms. -/
abbrev Point := ZMod L

/-- `ristretto255.Point.BASE`. -/
def basePoint : Point := 1

/-- `p.multiply(s)`. -/
def pointMul (p : Point) (s : Scalar) : Point := s * p

/-- `p.add(q)`. -/
def pointAdd (p q : Point) : Point := p + q

/-- `Fn.toBytes`: a scalar as 32 little-endian bytes of its value. -/
def scalarToBytes (s : Scalar) : List Nat := toLEbytes 32 s.val

/-- `Fn.fromBytes`: rejects wrong lengths and out-of-range values. -/
def scalarFromBytes (b : List Nat) : Option Scalar :=
  if b.length = 32 ∧ fromLEbytes b < L then some ((fromLEbytes b : Nat) : ZMod L)
  else none

/-- `Point.toBytes`: canonical injective 32-byte encoding. -/
def pointToBytes (p : Point) : List Nat := toLEbytes 32 p.val

/-- `Point.fromBytes`: rejects wrong lengths and invalid encodings. -/
def pointFromBytes (b : List Nat) : Option Point :=
  if b.length = 32 ∧ fromLEbytes b < L then some ((fromLEbytes b : Nat) : ZMod L)
  else none

/-! ## Signature engine (src/index.js: keyPair, validateKeyPair, sign,
verify, decrypt) -/

/-- The key-pair record returned by `exports.keyPair`. -/
structure KeyPair where
  publicKey : List Nat
  secretKey : List Nat

/-- Mirrors `exports.keyPair` given the private scalar produced by
`hashToScalar` (of the seed, or of 32 fresh random bytes): the secret key
stores the scalar bytes then a copy of the public key. -/
def keyPair (a : Scalar) : KeyPair :=
  let publicKeyBytes := pointToBytes (pointMul basePoint a)
  { publicKey := publicKeyBytes
    secretKey := scalarToBytes a ++ publicKeyBytes }

/-- Mirrors `exports.validateKeyPair`: decode the first 32 bytes of the
secret key as a scalar, recompute the public point, compare bytes; any
decoding failure is caught and yields `false`. -/
def validateKeyPair (kp : KeyPair) : Bool :=
  match scalarFromBytes (kp.secretKey.take 32) with
  | none => false
  | some a => decide (pointToBytes (pointMul basePoint a) = kp.publicKey)

/-- Mirrors `exports.sign` given the fresh nonce scalar drawn inside it:
`R = k·G`, challenge `c = hashToScalar(sha256(R  || P || m))`,
`s = k + c·sk`, signature `R || s`.  The scalar decode of the secret key is
not guarded in the code, so failure is `none` (a throw). -/
def sign (hashToScalar : List Nat → Scalar) (message secretKey : List Nat)
    (k : Scalar) : Option (List Nat) :=
  match scalarFromBytes (secretKey.take 32) with
  | none => none
  | some a =>
    let Rbytes := pointToBytes (pointMul basePoint k)
    let pubBytes := pointToBytes (pointMul basePoint a)
    let c := hashToScalar (sha256 (Rbytes ++ pubBytes ++ message))
    let s := k + c * a
    some (Rbytes ++ scalarToBytes s)

/-- Mirrors `exports.verify`: length checks first, then decode `R`, `P`,
`s` (any failure caught as `false`), recompute the challenge, and check
`s·G = R + c·P`. -/
def verify (hashToScalar : List Nat → Scalar)
    (message signature publicKey : List Nat) : Bool :=
  if signature.length ≠ 64 then false
  else if publicKey.length ≠ 32 then false
  else
    match pointFromBytes (signature.take 32), pointFromBytes publicKey,
        scalarFromBytes (signature.drop 32) with
    | some R, some P, some s =>
      let c := hashToScalar (sha256 (signature.take 32 ++ publicKey ++ message))
      decide (pointMul basePoint s = pointAdd R (pointMul P c))
    | _, _, _ => false

/-- Mirrors the XOR loop of `encrypt` / `decrypt`:
`out[i] = data[i] ^ key[i % 32]`. -/
def xorKeystream (dt key : List Nat) : List Nat :=
  (List.range dt.length).map (fun i => dt.getD i 0 ^^^ key.getD (i % 32) 0)

/-- Mirrors `exports.decrypt`: `null` when shorter than 32 bytes, otherwise
decode the ephemeral point and the private scalar (any failure caught as
`null`), derive the shared secret, and XOR-decrypt the rest. -/
def decrypt (ciphertext : List Nat) (kp : KeyPair) : Option (List Nat) :=
  if ciphertext.length < 32 then none
  else
    match pointFromBytes (ciphertext.take 32),
        scalarFromBytes (kp.secretKey.take 32) with
    | some ephP, some priv =>
      let key := (pointToBytes (pointMul ephP priv)).take 32
      some (xorKeystream (ciphertext.drop 32) key)
    | _, _ => none

/-! ## Spec-side digest formulas

Flat restatements of the §6 wire table, used to compare the code's digest
functions against the spec's words: `dataSpecBE` follows the spec's
big-endian claim, the `...SpecLE` forms are the little-endian variants the
code actually computes. -/

/-- Follows the spec's words (§6): leaf digest input
`0x00 || u64-big-endian(len(data)) || data`. -/
def dataSpecBE (d : List Nat) : List Nat :=
  sha256 ([0] ++ toBEbytes 8 d.length ++ d)

/-- The leaf digest with the length field little-endian. -/
def dataSpecLE (d : List Nat) : List Nat :=
  sha256 ([0] ++ toLEbytes 8 d.length ++ d)

/-- The parent digest with the combined size little-endian. -/
def parentSpecLE (a b : TreeNode) : List Nat :=
  let p := if a.index > b.index then (b, a) else (a, b)
  sha256 ([1] ++ toLEbytes 8 (p.1.size + p.2.size) ++ p.1.hash ++ p.2.hash)

/-- The root digest with each index and size little-endian. -/
def treeSpecLE (roots : List TreeNode) : List Nat :=
  sha256 ([2] ++
    (roots.map (fun r => r.hash ++ toLEbytes 8 r.index ++ toLEbytes 8 r.size)).flatten)

/-! ## Helper lemmas -/

theorem toLEbytes_length (k n : Nat) : (toLEbytes k n).length = k := by
  induction k generalizing n with
  | zero => rfl
  | succ k ih => simp [toLEbytes, ih]

theorem fromLEbytes_toLEbytes (k n : Nat) :
    fromLEbytes (toLEbytes k n) = n % 256 ^ k := by
  induction k generalizing n with
  | zero => simp [toLEbytes, fromLEbytes, Nat.mod_one]
  | succ k ih => rw [toLEbytes, fromLEbytes, ih, pow_succ', Nat.mod_mul]

instance : NeZero L := ⟨by decide⟩

theorem L_lt_pow : L < 256 ^ 32 := by decide

theorem fromLEbytes_toLEbytes_val (s : ZMod L) :
    fromLEbytes (toLEbytes 32 s.val) = s.val := by
  rw [fromLEbytes_toLEbytes]
  exact Nat.mod_eq_of_lt (lt_trans (ZMod.val_lt s) L_lt_pow)

theorem scalarFromBytes_scalarToBytes (s : Scalar) :
    scalarFromBytes (scalarToBytes s) = some s := by
  unfold scalarFromBytes scalarToBytes
  rw [if_pos ⟨toLEbytes_length 32 _,
    by rw [fromLEbytes_toLEbytes_val]; exact ZMod.val_lt s⟩]
  rw [fromLEbytes_toLEbytes_val]
  exact congrArg some (ZMod.natCast_rightInverse s)

theorem pointFromBytes_pointToBytes (p : Point) :
    pointFromBytes (pointToBytes p) = some p := by
  unfold pointFromBytes pointToBytes
  rw [if_pos ⟨toLEbytes_length 32 _,
    by rw [fromLEbytes_toLEbytes_val]; exact ZMod.val_lt p⟩]
  rw [fromLEbytes_toLEbytes_val]
  exact congrArg some (ZMod.natCast_rightInverse p)

theorem pointToBytes_inj {p q : Point} (h : pointToBytes p = pointToBytes q) :
    p = q := by
  have h2 := congrArg fromLEbytes h
  simp only [pointToBytes] at h2
  rw [fromLEbytes_toLEbytes_val, fromLEbytes_toLEbytes_val] at h2
  exact ZMod.val_injective L h2

theorem pointToBytes_length (p : Point) : (pointToBytes p).length = 32 :=
  toLEbytes_length 32 _

theorem scalarToBytes_length (s : Scalar) : (scalarToBytes s).length = 32 :=
  toLEbytes_length 32 _

theorem take_32_append {l1 l2 : List Nat} (h : l1.length = 32) :
    (l1 ++ l2).take 32 = l1 := by
  rw [← h]; exact List.take_left l1 l2

theorem drop_32_append {l1 l2 : List Nat} (h : l1.length = 32) :
    (l1 ++ l2).drop 32 = l2 := by
  rw [← h]; exact List.drop_left l1 l2

theorem tree_transcript (f : Hasher → TreeNode → Hasher)
    (hf : ∀ (h : Hasher) (r : TreeNode),
      f h r = ⟨((h.transcript ++ r.hash) ++ encUint64 r.index) ++ encUint64 r.size⟩)
    (roots : List TreeNode) (t : List Nat) :
    (List.foldl f ⟨t⟩ roots).transcript =
      t ++ (roots.map (fun r => r.hash ++ toLEbytes 8 r.index ++
        toLEbytes 8 r.size)).flatten := by
  induction roots generalizing t with
  | nil => simp
  | cons r rs ih =>
    rw [List.foldl_cons, hf, ih]
    simp [encUint64, List.append_assoc]

theorem hashChunks_transcript (chunks : List (List Nat)) (t : List Nat) :
    (chunks.foldl Hasher.update ⟨t⟩).transcript = t ++ chunks.flatten := by
  induction chunks generalizing t with
  | nil => simp
  | cons ch chs ih => simp [Hasher.update, ih]

/-! ## Claims -/

/-- C3: the leaf hash of the 11-byte ASCII string "hello world" equals the
fixed 32-byte reference digest
`bc260f875f75e760bd05e029648785cc3793100eda763cf9754423442027bcb5`. -/
theorem C3_leaf_hello_world_vector :
    data [104, 101, 108, 108, 111, 32, 119, 111, 114, 108, 100] =
      [0xbc, 0x26, 0x0f, 0x87, 0x5f, 0x75, 0xe7, 0x60, 0xbd, 0x05, 0xe0, 0x29,
       0x64, 0x87, 0x85, 0xcc, 0x37, 0x93, 0x10, 0x0e, 0xda, 0x76, 0x3c, 0xf9,
       0x75, 0x44, 0x23, 0x44, 0x20, 0x27, 0xbc, 0xb5] := by decide

/-- C2 fails as stated: the leaf digest of "hello world" is not the digest
of `0x00 || u64-big-endian(11) || "hello world"` — the length field the
code hashes is little-endian (compact-encoding `uint64`), as the repository
reference vectors pin down. -/
theorem C2_counterexample :
    data [104, 101, 108, 108, 111, 32, 119, 111, 114, 108, 100] ≠
      dataSpecBE [104, 101, 108, 108, 111, 32, 119, 111, 114, 108, 100] := by
  decide

/-- C2 (amended): every 8-byte integer field in the digest inputs is
encoded little-endian — `data` hashes `0x00 || u64-LE(len(data)) || data`,
`parent` encodes the combined size as u64-LE, and `tree` encodes each
root's index and size as u64-LE. -/
theorem C2_little_endian_fields :
    (∀ d : List Nat, data d = dataSpecLE d) ∧
    (∀ a b : TreeNode, parent a b = parentSpecLE a b) ∧
    (∀ roots : List TreeNode, tree roots = treeSpecLE roots) := by
  refine ⟨fun d => ?_, fun a b => ?_, fun roots => ?_⟩
  · simp [data, dataSpecLE, Hasher.create, Hasher.update, Hasher.digest,
      encUint64]
  · simp [parent, parentSpecLE, Hasher.create, Hasher.update, Hasher.digest,
      encUint64]
  · unfold tree treeSpecLE Hasher.digest
    rw [show (Hasher.create.update [2]) = (⟨[2]⟩ : Hasher) from rfl]
    exact congrArg sha256 (tree_transcript
      (fun h r => ((h.update r.hash).update (encUint64 r.index)).update
        (encUint64 r.size))
      (fun _ _ => rfl) roots [2])

/-- C7: the generic hash is chunking-invariant — `hash [A, B]` equals
`hash (A ++ B)`, and in general the digest of a chunk list equals the
digest of the concatenation of its chunks. -/
theorem C7_hash_chunking_invariant :
    (∀ A B : List Nat, hashChunks [A, B] = hashChunks [A ++ B]) ∧
    (∀ chunks : List (List Nat), hashChunks chunks = hashChunks [chunks.flatten]) := by
  have key : ∀ chunks : List (List Nat), hashChunks chunks = sha256 chunks.flatten := by
    intro chunks
    unfold hashChunks Hasher.digest
    rw [show (Hasher.create : Hasher) = (⟨[]⟩ : Hasher) from rfl,
      hashChunks_transcript]
    simp
  refine ⟨fun A B => ?_, fun chunks => ?_⟩
  · rw [key, key]; simp
  · rw [key, key]; simp

/-- C5 fails as stated: two nodes with equal indices are not swapped, so
the argument hashes are fed in call order and the digests differ. -/
theorem C5_counterexample :
    parent ⟨0, 1, List.replicate 32 0⟩ ⟨0, 2, List.replicate 32 1⟩ ≠
      parent ⟨0, 2, List.replicate 32 1⟩ ⟨0, 1, List.replicate 32 0⟩ := by
  decide

/-- C5 (amended): `parent` is commutative for any two nodes with distinct
indices — the node with the smaller index is hashed first regardless of
argument order. -/
theorem C5_parent_comm_of_index_ne (a b : TreeNode) (h : a.index ≠ b.index) :
    parent a b = parent b a := by
  unfold parent
  rcases Nat.lt_trichotomy a.index b.index with hlt | heq | hgt
  · rw [if_neg (by omega), if_pos (by omega)]
  · exact absurd heq h
  · rw [if_pos (by omega), if_neg (by omega)]

/-- Witness for C5 (amended) at two concrete nodes with indices 0 and 1. -/
theorem C5_witness :
    (TreeNode.mk 0 11 (List.replicate 32 0)).index ≠
      (TreeNode.mk 1 2 (List.replicate 32 1)).index ∧
    parent ⟨0, 11, List.replicate 32 0⟩ ⟨1, 2, List.replicate 32 1⟩ =
      parent ⟨1, 2, List.replicate 32 1⟩ ⟨0, 11, List.replicate 32 0⟩ :=
  ⟨by decide, C5_parent_comm_of_index_ne _ _ (by decide)⟩

/-- C6 fails as stated: an id outside 0..255 does not raise — the store
`ns[32] = ids[i]` truncates it modulo 256, so id 256 silently produces the
same entry as id 0 (shown here at the name "foo"). -/
theorem C6_counterexample :
    (namespaceIds [102, 111, 111] [256]).length = 1 ∧
      namespaceIds [102, 111, 111] [256] = namespaceIds [102, 111, 111] [0] := by
  constructor
  · rfl
  · decide

/-- C6 (amended): `namespace` never fails on out-of-range ids — it always
produces one entry per requested id, and each id is truncated modulo 256
when written into the single id byte, so ids outside 0..255 alias small
ids instead of raising. -/
theorem C6_namespace_truncates_ids (name : List Nat) (ids : List Nat) :
    (namespaceIds name ids).length = ids.length ∧
      namespaceIds name ids = namespaceIds name (ids.map (· % 256)) := by
  constructor
  · simp [namespaceIds]
  · simp [namespaceIds, List.map_map, Function.comp, Nat.mod_mod_of_dvd]

/-- C8: random-access determinism of `namespace` — dropping the first `k`
entries of the first-`n`-ids derivation gives exactly the derivation at the
explicit id list `[k, k+1, ..., n-1]`. -/
theorem C8_namespace_random_access (name : List Nat) (n k : Nat) (h : k < n) :
    (namespaceN name n).drop k = namespaceIds name (List.range' k (n - k)) := by
  unfold namespaceN namespaceIds
  rw [← List.map_drop]
  have hr : (List.range n).drop k = List.range' k (n - k) := by
    have hsplit : List.range n = List.range' 0 k ++ List.range' k (n - k) := by
      rw [List.range_eq_range']
      calc List.range' 0 n
          = List.range' 0 (n - k + k) := by
            rw [Nat.sub_add_cancel (Nat.le_of_lt h)]
        _ = List.range' 0 k ++ List.range' (0 + k) (n - k) :=
            (List.range'_append_1 0 k (n - k)).symm
        _ = List.range' 0 k ++ List.range' k (n - k) := by rw [Nat.zero_add]
    rw [hsplit, List.drop_left' (by simp)]
  rw [hr]

/-- Witness for C8 at the empty name, `n = 2`, `k = 1`. -/
theorem C8_witness :
    1 < 2 ∧ (namespaceN [] 2).drop 1 = namespaceIds [] (List.range' 1 (2 - 1)) :=
  ⟨by decide, C8_namespace_random_access [] 2 1 (by decide)⟩

theorem verify_ok (hts : List Nat → Scalar) (m : List Nat) (R P : Point)
    (s : Scalar)
    (hcheck : s * 1 = R + hts (sha256 (pointToBytes R ++ pointToBytes P ++ m)) * P) :
    verify hts m (pointToBytes R ++ scalarToBytes s) (pointToBytes P) = true := by
  have hlen : (pointToBytes R ++ scalarToBytes s).length = 64 := by
    rw [List.length_append, pointToBytes_length, scalarToBytes_length]
  unfold verify
  simp only [hlen, pointToBytes_length, take_32_append (pointToBytes_length R),
    drop_32_append (pointToBytes_length R), pointFromBytes_pointToBytes,
    scalarFromBytes_scalarToBytes, ne_eq, not_true_eq_false, if_false]
  exact decide_eq_true hcheck

/-- C1: for every message `m`, every key pair produced by `keyPair`, and
every nonce, `sign` produces a 64-byte signature that `verify` accepts
against the pair's public key — the addition-form equation pair
`s = k + e·sk`, checked as `s·G = R + c·P`, is consistent. -/
theorem C1_sign_verify_roundtrip (hts : List Nat → Scalar) (a k : Scalar)
    (m : List Nat) :
    ∃ sig, sign hts m (keyPair a).secretKey k = some sig ∧
      verify hts m sig (keyPair a).publicKey = true := by
  have hsk : (keyPair a).secretKey.take 32 = scalarToBytes a :=
    take_32_append (scalarToBytes_length a)
  refine ⟨pointToBytes (pointMul basePoint k) ++
    scalarToBytes (k +
      hts (sha256 (pointToBytes (pointMul basePoint k) ++
        pointToBytes (pointMul basePoint a) ++ m)) * a), ?_, ?_⟩
  · unfold sign
    rw [hsk, scalarFromBytes_scalarToBytes]
  · have h := verify_ok hts m (pointMul basePoint k) (pointMul basePoint a)
      (k + hts (sha256 (pointToBytes (pointMul basePoint k) ++
        pointToBytes (pointMul basePoint a) ++ m)) * a)
      (by unfold pointMul basePoint; ring)
    exact h

/-- C4: `verify` is total on adversarial input — on any signature buffer
that is not exactly 64 bytes, any public-key buffer that is not exactly
32 bytes, or any input whose point or scalar component fails to decode, it
returns `false` (each failure the code throws on is caught). -/
theorem C4_verify_rejects_malformed (hts : List Nat → Scalar)
    (m sig pk : List Nat)
    (h : sig.length ≠ 64 ∨ pk.length ≠ 32 ∨
      pointFromBytes (sig.take 32) = none ∨ pointFromBytes pk = none ∨
      scalarFromBytes (sig.drop 32) = none) :
    verify hts m sig pk = false := by
  unfold verify
  split_ifs with h1 h2
  · rfl
  · rfl
  · rcases h with h | h | h | h | h
    · exact absurd h h1
    · exact absurd h h2
    all_goals
      cases hR : pointFromBytes (sig.take 32) <;>
        cases hP : pointFromBytes pk <;>
          cases hS : scalarFromBytes (sig.drop 32) <;> simp_all

/-- Witness for C4 at the empty message, empty signature, empty key. -/
theorem C4_witness :
    (([] : List Nat).length ≠ 64 ∨ ([] : List Nat).length ≠ 32 ∨
      pointFromBytes (([] : List Nat).take 32) = none ∨
      pointFromBytes ([] : List Nat) = none ∨
      scalarFromBytes (([] : List Nat).drop 32) = none) ∧
    verify (fun _ => (0 : Scalar)) [] [] [] = false :=
  ⟨Or.inl (by decide),
   C4_verify_rejects_malformed (fun _ => 0) [] [] [] (Or.inl (by decide))⟩

/-- C9: `validateKeyPair` returns true on every generated key pair,
false when the secret key comes from a different key pair than the stated
public key, and false (not an error) when the stored scalar fails to
decode. -/
theorem C9_validateKeyPair_correct (a b : Scalar) (pk sk : List Nat) :
    validateKeyPair (keyPair a) = true ∧
    (a ≠ b →
      validateKeyPair ⟨(keyPair a).publicKey, (keyPair b).secretKey⟩ = false) ∧
    (scalarFromBytes (sk.take 32) = none → validateKeyPair ⟨pk, sk⟩ = false) := by
  refine ⟨?_, fun hab => ?_, fun hno => ?_⟩
  · have hsome : scalarFromBytes ((keyPair a).secretKey.take 32) = some a := by
      rw [show (keyPair a).secretKey =
            scalarToBytes a ++ pointToBytes (pointMul basePoint a) from rfl,
        take_32_append (scalarToBytes_length a), scalarFromBytes_scalarToBytes]
    unfold validateKeyPair
    rw [hsome]
    exact decide_eq_true rfl
  · have hsome : scalarFromBytes
        ((⟨(keyPair a).publicKey, (keyPair b).secretKey⟩ : KeyPair).secretKey.take
          32) = some b := by
      rw [show (⟨(keyPair a).publicKey, (keyPair b).secretKey⟩ : KeyPair).secretKey =
            scalarToBytes b ++ pointToBytes (pointMul basePoint b) from rfl,
        take_32_append (scalarToBytes_length b), scalarFromBytes_scalarToBytes]
    unfold validateKeyPair
    rw [hsome]
    refine decide_eq_false fun hEq => ?_
    have hba : pointMul basePoint b = pointMul basePoint a := pointToBytes_inj hEq
    have hba2 : b * (1 : ZMod L) = a * 1 := hba
    rw [mul_one, mul_one] at hba2
    exact hab hba2.symm
  · unfold validateKeyPair
    rw [hno]

/-- Witness for C9 at the scalars 0 and 1 and the empty buffers. -/
theorem C9_witness :
    validateKeyPair (keyPair 0) = true ∧
    ((0 : Scalar) ≠ 1 ∧
      validateKeyPair ⟨(keyPair 0).publicKey, (keyPair 1).secretKey⟩ = false) ∧
    (scalarFromBytes (([] : List Nat).take 32) = none ∧
      validateKeyPair ⟨[], []⟩ = false) :=
  ⟨(C9_validateKeyPair_correct 0 1 [] []).1,
   ⟨by decide, (C9_validateKeyPair_correct 0 1 [] []).2.1 (by decide)⟩,
   ⟨by decide, (C9_validateKeyPair_correct 0 1 [] []).2.2 (by decide)⟩⟩

/-- C10: `decrypt` returns `null` rather than raising on malformed input —
on any ciphertext shorter than 32 bytes, any ciphertext whose leading 32
bytes fail to decode as a point, and any key pair whose private scalar
fails to decode. -/
theorem C10_decrypt_malformed_returns_none (ct : List Nat) (kp : KeyPair) :
    (ct.length < 32 → decrypt ct kp = none) ∧
    (pointFromBytes (ct.take 32) = none → decrypt ct kp = none) ∧
    (scalarFromBytes (kp.secretKey.take 32) = none → decrypt ct kp = none) := by
  refine ⟨fun h => ?_, fun h => ?_, fun h => ?_⟩
  · unfold decrypt
    rw [if_pos h]
  · unfold decrypt
    split_ifs with h1
    · rfl
    · cases hR : pointFromBytes (ct.take 32) <;>
        cases hS : scalarFromBytes (kp.secretKey.take 32) <;> simp_all
  · unfold decrypt
    split_ifs with h1
    · rfl
    · cases hR : pointFromBytes (ct.take 32) <;>
        cases hS : scalarFromBytes (kp.secretKey.take 32) <;> simp_all

/-- Witness for C10 at an empty ciphertext, an undecodable 32-byte
ciphertext, and an empty secret key. -/
theorem C10_witness :
    (([] : List Nat).length < 32 ∧ decrypt [] ⟨[], []⟩ = none) ∧
    (pointFromBytes ((List.replicate 32 255).take 32) = none ∧
      decrypt (List.replicate 32 255) ⟨[], []⟩ = none) ∧
    (scalarFromBytes (([] : List Nat).take 32) = none ∧
      decrypt (List.replicate 32 0) ⟨[], []⟩ = none) :=
  ⟨⟨by decide, (C10_decrypt_malformed_returns_none [] ⟨[], []⟩).1 (by decide)⟩,
   ⟨by decide,
    (C10_decrypt_malformed_returns_none (List.replicate 32 255) ⟨[], []⟩).2.1
      (by decide)⟩,
   ⟨by decide,
    (C10_decrypt_malformed_returns_none (List.replicate 32 0) ⟨[], []⟩).2.2
      (by decide)⟩⟩

end HypercoreCrypto
